import Mathlib

/-!
Verification of the recipe-url-ingredients pipeline of the chomp-website
repository.  The TypeScript sources are shallowly embedded: JavaScript
strings are modelled as `List Char` (wrapped into Lean `String` at the API
surface), JavaScript objects as Lean structures in which an optional field
is an `Option`, `Date.now()` instants as natural-number milliseconds, and
stateful stores as explicit state passing.  Each definition is translated
from the source file named in its doc comment.
-/

namespace Chomp

/-- Model of the JavaScript regular-expression class \s restricted to the
ASCII whitespace characters (space, tab, line feed, carriage return,
vertical tab, form feed).  The sources only apply it via trim() and
replace over \s+. -/
def isWs (c : Char) : Bool :=
  c == ' ' || c == '\t' || c == '\n' || c == '\r' ||
  c == Char.ofNat 11 || c == Char.ofNat 12

/-- Model of String.prototype.trim()'s removal of leading whitespace. -/
def trimLeft (l : List Char) : List Char :=
  l.dropWhile isWs

/-- Model of String.prototype.trim()'s removal of trailing whitespace. -/
def trimRight (l : List Char) : List Char :=
  (l.reverse.dropWhile isWs).reverse

/-- Model of String.prototype.trim(). -/
def jsTrim (l : List Char) : List Char :=
  trimRight (trimLeft l)

/-- Model of .replace over the pattern \s+ with a single space: every
maximal run of whitespace characters is replaced by one space.  The
boolean argument records whether the previously scanned character was
part of a whitespace run. -/
def collapseAux : Bool → List Char → List Char
  | _, [] => []
  | prevWs, c :: cs =>
    if isWs c then
      if prevWs then collapseAux true cs
      else ' ' :: collapseAux true cs
    else c :: collapseAux false cs

/-- Model of .replace of \s+ by a single space on a whole string. -/
def collapseWs (l : List Char) : List Char :=
  collapseAux false l

/-- normalizeWhitespace from normalizeIngredients.ts: value.trim() followed
by .replace of every whitespace run with a single space. -/
def normalizeWhitespaceL (l : List Char) : List Char :=
  collapseWs (jsTrim l)

/-- Per-character model of String.prototype.toLowerCase(), using the ASCII
lowering that core Lean's Char.toLower implements. -/
def lowerChar (c : Char) : Char :=
  Char.toLower c

/-- Model of String.prototype.toLowerCase() on a whole string. -/
def lowerL (l : List Char) : List Char :=
  l.map lowerChar

/-- String-level normalizeWhitespace from normalizeIngredients.ts. -/
def normalizeWhitespaceS (s : String) : String :=
  ⟨normalizeWhitespaceL s.data⟩

/-- Lookup in a JavaScript object literal used as a string-keyed record,
returning the value of the first matching key (all keys in the sources
are distinct). -/
def assocLookup {α : Type} (k : String) : List (String × α) → Option α
  | [] => none
  | (k', v) :: rest => if k = k' then some v else assocLookup k rest

/-- UNIT_MAPPINGS from normalizeIngredients.ts: canonical unit synonyms. -/
def UNIT_MAPPINGS : List (String × String) :=
  [("tablespoon", "tbsp"), ("tablespoons", "tbsp"), ("tbsp", "tbsp"),
   ("tbs", "tbsp"), ("tb", "tbsp"),
   ("teaspoon", "tsp"), ("teaspoons", "tsp"), ("tsp", "tsp"),
   ("cup", "cup"), ("cups", "cup"), ("c", "cup"),
   ("pint", "pint"), ("pints", "pint"), ("pt", "pint"),
   ("quart", "quart"), ("quarts", "quart"), ("qt", "quart"),
   ("gallon", "gallon"), ("gallons", "gallon"), ("gal", "gallon"),
   ("liter", "liter"), ("liters", "liter"), ("litre", "liter"),
   ("litres", "liter"), ("l", "liter"),
   ("milliliter", "ml"), ("milliliters", "ml"), ("millilitre", "ml"),
   ("millilitres", "ml"), ("ml", "ml"),
   ("fluid ounce", "fl oz"), ("fluid ounces", "fl oz"), ("fl oz", "fl oz"),
   ("floz", "fl oz"),
   ("pound", "lb"), ("pounds", "lb"), ("lb", "lb"), ("lbs", "lb"),
   ("ounce", "oz"), ("ounces", "oz"), ("oz", "oz"),
   ("gram", "g"), ("grams", "g"), ("g", "g"),
   ("kilogram", "kg"), ("kilograms", "kg"), ("kg", "kg"),
   ("clove", "clove"), ("cloves", "clove"),
   ("piece", "piece"), ("pieces", "piece"),
   ("slice", "slice"), ("slices", "slice"),
   ("can", "can"), ("cans", "can"),
   ("package", "package"), ("packages", "package"), ("pkg", "package"),
   ("bunch", "bunch"), ("bunches", "bunch"),
   ("head", "head"), ("heads", "head"),
   ("sprig", "sprig"), ("sprigs", "sprig"),
   ("stalk", "stalk"), ("stalks", "stalk"),
   ("stick", "stick"), ("sticks", "stick"),
   ("dash", "dash"), ("dashes", "dash"),
   ("pinch", "pinch"), ("pinches", "pinch"),
   ("handful", "handful"), ("handfuls", "handful"),
   ("small", "small"), ("medium", "medium"), ("large", "large")]

/-- The cleaning step of normalizeUnit from normalizeIngredients.ts:
normalizeWhitespace(unit.toLowerCase()). -/
def cleanUnit (s : String) : String :=
  ⟨normalizeWhitespaceL (lowerL s.data)⟩

/-- normalizeUnit from normalizeIngredients.ts.  Null propagates, an
empty cleaned string becomes null, otherwise the cleaned string is looked
up in UNIT_MAPPINGS with fallback to itself. -/
def normalizeUnit (unit : Option String) : Option String :=
  match unit with
  | none => none
  | some u =>
    let cleaned := cleanUnit u
    if cleaned = "" then none
    else some ((assocLookup cleaned UNIT_MAPPINGS).getD cleaned)

/-- normalizeIngredientName from normalizeIngredients.ts:
normalizeWhitespace(name).toLowerCase(). -/
def normalizeIngredientName (name : String) : String :=
  ⟨lowerL (normalizeWhitespaceL name.data)⟩

/-- normalizeNotes from normalizeIngredients.ts. -/
def normalizeNotes (notes : Option String) : Option String :=
  match notes with
  | none => none
  | some n =>
    let cleaned := normalizeWhitespaceS n
    if cleaned = "" then none else some cleaned

/-- normalizeRecipeName from normalizeIngredients.ts. -/
def normalizeRecipeName (name : Option String) : Option String :=
  match name with
  | none => none
  | some n =>
    let cleaned := normalizeWhitespaceS n
    if cleaned = "" then none else some cleaned

/-- normalizeServings from normalizeIngredients.ts. -/
def normalizeServings (servings : Option String) : Option String :=
  match servings with
  | none => none
  | some s =>
    let cleaned := normalizeWhitespaceS s
    if cleaned = "" then none else some cleaned

/-- IngredientCategory from types.ts: the fixed 11-value enum, also the
category enum of the zod aiIngredientSchema in aiExtract.ts. -/
inductive IngredientCategory
  | Produce | Deli | Dairy | Bakery | Frozen | Pantry
  | Beverages | Snacks | HealthAndBeauty | Household | Other
deriving DecidableEq

/-- AIIngredient from aiExtract.ts (z.infer of aiIngredientSchema): name,
nullable numeric quantity, nullable unit, nullable notes, and a required
category from the 11-value enum. -/
structure AIIngredient where
  name : String
  quantity : Option ℚ
  unit : Option String
  notes : Option String
  category : IngredientCategory
deriving DecidableEq

/-- AIExtraction from aiExtract.ts (z.infer of aiExtractionSchema). -/
structure AIExtraction where
  recipeName : Option String
  servings : Option String
  ingredients : List AIIngredient
deriving DecidableEq

/-- The JavaScript object produced by normalizeIngredient.  A field that
the producing object literal may omit is an Option; category is an Option
because the literal in normalizeIngredients.ts does not set it, while the
declared result type RecipeUrlIngredient of types.ts requires it. -/
structure RecipeUrlIngredientObj where
  name : String
  quantity : Option ℚ
  unit : Option String
  notes : Option String
  category : Option IngredientCategory
deriving DecidableEq

/-- The property that an ingredient object inhabits the declared
RecipeUrlIngredient type of types.ts (and satisfies the
recipeUrlIngredientSchema of schema.ts): the required category field is
present. -/
def hasRequiredCategory (i : RecipeUrlIngredientObj) : Bool :=
  i.category.isSome

/-- normalizeIngredient from normalizeIngredients.ts.  The returned object
literal carries name, quantity, unit and notes only; no category key is
written, so the field is absent (none). -/
def normalizeIngredient (i : AIIngredient) : RecipeUrlIngredientObj :=
  { name := normalizeIngredientName i.name
    quantity := i.quantity
    unit := normalizeUnit i.unit
    notes := normalizeNotes i.notes
    category := none }

/-- RecipeUrlIngredientsResponse from types.ts, with the ingredient
objects as actually produced. -/
structure RecipeUrlIngredientsResponse where
  sourceUrl : String
  recipeName : Option String
  servings : Option String
  ingredients : List RecipeUrlIngredientObj
deriving DecidableEq

/-- normalizeExtraction from normalizeIngredients.ts. -/
def normalizeExtraction (extraction : AIExtraction) (sourceUrl : String) :
    RecipeUrlIngredientsResponse :=
  { sourceUrl := sourceUrl
    recipeName := normalizeRecipeName extraction.recipeName
    servings := normalizeServings extraction.servings
    ingredients := extraction.ingredients.map normalizeIngredient }

/-- The backtick character that delimits markdown code fences. -/
def tick : Char := Char.ofNat 96

/-- A markdown code fence: three backticks. -/
def fenceTicks : List Char := [tick, tick, tick]

/-- stripMarkdownCodeBlocks from aiExtract.ts, including its final trim.
Models the anchored case-insensitive regular expression that removes one
wrapping code fence with an optional json language tag: the string must
start with three backticks, an optional case-insensitive json tag is
consumed, and the string must end with three further backticks; the lazy
inner group together with the whitespace paddings and the final trim make
the result the trimmed text between the fences.  A string that does not
match is only trimmed. -/
def stripMarkdownCodeBlocksL (content : List Char) : List Char :=
  if content.take 3 = fenceTicks then
    let afterTicks := content.drop 3
    let afterJson :=
      if (afterTicks.take 4).map lowerChar = ['j', 's', 'o', 'n'] then
        afterTicks.drop 4
      else afterTicks
    if 3 ≤ afterJson.length ∧
        afterJson.drop (afterJson.length - 3) = fenceTicks then
      jsTrim (afterJson.take (afterJson.length - 3))
    else jsTrim content
  else jsTrim content

/-- parseAIResponse from aiExtract.ts, parameterised over the rest of the
pipeline.  The source first rejects empty or whitespace-only content, then
strips a wrapping markdown code fence from the trimmed content and hands
the cleaned string to JSON.parse followed by zod schema validation; that
continuation is the parameter rest, and emptyResult is the outcome of the
empty_response rejection. -/
def parseAIResponseWith {α : Type} (rest : List Char → α) (emptyResult : α)
    (content : List Char) : α :=
  if jsTrim content = [] then emptyResult
  else rest (stripMarkdownCodeBlocksL (jsTrim content))

/-- A payload wrapped in a markdown code fence, with or without the json
language tag, as produced by the extraction service. -/
def wrapFence (lang : Bool) (p : List Char) : List Char :=
  fenceTicks ++ (if lang then ['j', 's', 'o', 'n'] else []) ++
    '\n' :: (p ++ '\n' :: fenceTicks)

/-- UrlValidationResult from the SSRF urlValidation source: tagged success
carrying the parsed URL or failure carrying a reason. -/
inductive UrlValidationResult (υ : Type)
  | valid (url : υ)
  | invalid (reason : String)
deriving DecidableEq

/-- Whether a UrlValidationResult is a failure outcome. -/
def UrlValidationResult.isFailure {υ : Type} :
    UrlValidationResult υ → Bool
  | .valid _ => false
  | .invalid _ => true

/-- The parsed URL object handed to validateUrl's steps after new URL():
only the protocol and hostname components are consulted. -/
structure UrlObj where
  protocol : String
  hostname : String
deriving DecidableEq

/-- Model of String.prototype.split on the dot separator. -/
def splitOnDot : List Char → List (List Char)
  | [] => [[]]
  | c :: cs =>
    let r := splitOnDot cs
    if c = '.' then [] :: r
    else
      match r with
      | [] => [[c]]
      | h :: t => (c :: h) :: t

/-- Value of a decimal digit character. -/
def digitVal (c : Char) : Nat := c.toNat - 48

/-- Model of the JavaScript Number conversion as used on the parts of a
dotted hostname: a non-empty all-digit string converts to its decimal
value, the empty string converts to 0, anything else is NaN (none).
Exotic numeric syntaxes (hex, exponents, signs, padding) that Number also
accepts cannot pass the canonical-form check of isIPv4 and do not occur in
resolver-produced addresses, so they are conflated with NaN here. -/
def jsNum (l : List Char) : Option Nat :=
  if l = [] then some 0
  else if l.all Char.isDigit then
    some (l.foldl (fun acc c => acc * 10 + digitVal c) 0)
  else none

/-- The decimal representation check String(num) === p of isIPv4,
via Nat.repr. -/
def natChars (n : Nat) : List Char :=
  (Nat.repr n).data

/-- isPrivateIPv4 from the SSRF urlValidation source: split the address on
dots, convert each part with Number, require exactly four parts in 0..255,
then test the private and reserved ranges on the leading octets. -/
def isPrivateIPv4L (ip : List Char) : Bool :=
  match (splitOnDot ip).map jsNum with
  | [some a, some b, some c, some d] =>
    if a > 255 || b > 255 || c > 255 || d > 255 then false
    else
      (a == 0) || (a == 10) || (a == 127) ||
      (a == 169 && b == 254) ||
      (a == 172 && decide (16 ≤ b) && decide (b ≤ 31)) ||
      (a == 192 && b == 168) ||
      (decide (224 ≤ a) && decide (a ≤ 239)) ||
      decide (240 ≤ a)
  | _ => false

/-- isIPv4 from the SSRF urlValidation source: four dot-separated parts,
each a number in 0..255 whose canonical decimal form equals the part. -/
def isIPv4L (l : List Char) : Bool :=
  let parts := splitOnDot l
  parts.length == 4 &&
    parts.all fun p =>
      match jsNum p with
      | some n => decide (n ≤ 255) && (natChars n == p)
      | none => false

/-- isIPv6 from the SSRF urlValidation source: after removing one pair of
surrounding brackets, the string must contain a colon and split into at
most two pieces on a double colon. -/
def isIPv6L (l : List Char) : Bool :=
  let unbracket :=
    match l with
    | '[' :: rest =>
      if rest ≠ [] ∧ rest.getLast? = some ']' then rest.dropLast else l
    | _ => l
  unbracket.contains ':' && decide ((countDoubleColonPieces unbracket) ≤ 2)
where
  /-- Number of pieces produced by splitting on the double colon: one more
  than the number of non-overlapping double colons.  The source only
  compares this against 2. -/
  countDoubleColonPieces : List Char → Nat
    | ':' :: ':' :: rest => countDoubleColonPieces rest + 1
    | _ :: rest => countDoubleColonPieces rest
    | [] => 1

/-- expandIPv6 and isPrivateIPv6 from the SSRF urlValidation source are
consulted through this predicate.  Loopback, an IPv4-mapped address with
a private embedded IPv4, link-local fe80::/10, site-local fec0::/10,
unique-local fc00::/7 and the unspecified address are private. -/
def isPrivateIPv6L (ip : List Char) : Bool :=
  let normalized := lowerL ip
  if normalized = [':', ':', '1'] then true
  else
    match normalized with
    | ':' :: ':' :: 'f' :: 'f' :: 'f' :: 'f' :: ':' :: mapped =>
      if mapped.contains '.' && !(mapped.contains ':') then
        isPrivateIPv4L mapped
      else expandedCheck normalized
    | _ => expandedCheck normalized
where
  /-- Model of the range tests that the source performs on the first
  16-bit segment of the expanded address, together with the unspecified
  address test.  Instead of literally expanding to eight padded segments,
  the first segment's value is computed from the leading hex digits (the
  prefix up to the first colon, or the run introduced after a leading
  double colon, which expands to zero segments first). -/
  expandedCheck (l : List Char) : Bool :=
    match firstSegmentVal l with
    | some v =>
      (decide (0xfe80 ≤ v) && decide (v ≤ 0xfebf)) ||
      (decide (0xfec0 ≤ v) && decide (v ≤ 0xfeff)) ||
      (decide (0xfc00 ≤ v) && decide (v ≤ 0xfdff)) ||
      (l.all fun c => c = ':' || c = '0')
    | none => false
  /-- Value of the first 16-bit segment of the expanded form: a leading
  double colon means the first segment is zero; otherwise the hex digits
  before the first colon are read. -/
  firstSegmentVal (l : List Char) : Option Nat :=
    match l with
    | ':' :: ':' :: _ => some 0
    | _ =>
      let seg := l.takeWhile (fun c => c ≠ ':')
      if seg ≠ [] ∧ seg.length ≤ 4 ∧ seg.all isHexDigitL then
        some (seg.foldl (fun acc c => acc * 16 + hexVal c) 0)
      else none
  /-- Hexadecimal digit test for lowercased input. -/
  isHexDigitL (c : Char) : Bool :=
    c.isDigit || (decide ('a' ≤ c) && decide (c ≤ 'f'))
  /-- Value of a lowercased hexadecimal digit. -/
  hexVal (c : Char) : Nat :=
    if c.isDigit then c.toNat - 48 else c.toNat - 87

/-- The regular expression of isLocalhostHostname that recognises a
loopback dotted quad with optional surrounding brackets. -/
def matchesLoopbackQuad (l : List Char) : Bool :=
  let l1 := match l with
            | '[' :: rest => rest
            | _ => l
  match l1 with
  | '1' :: '2' :: '7' :: '.' :: r =>
    match eatDigitsDot r with
    | some r2 =>
      match eatDigitsDot r2 with
      | some r4 =>
        let ds := r4.takeWhile Char.isDigit
        let r5 := r4.dropWhile Char.isDigit
        ds ≠ [] && (r5 == [] || r5 == [']'])
      | none => false
    | none => false
  | _ => false
where
  /-- Consume one or more digits followed by a dot, returning the rest. -/
  eatDigitsDot (l : List Char) : Option (List Char) :=
    let ds := l.takeWhile Char.isDigit
    if ds = [] then none
    else
      match l.dropWhile Char.isDigit with
      | '.' :: rest => some rest
      | _ => none

/-- isLocalhostHostname from the SSRF urlValidation source. -/
def isLocalhostHostname (hostname : List Char) : Bool :=
  let lower := lowerL hostname
  lower == "localhost".data ||
  lower == "localhost.localdomain".data ||
  ".localhost".data.isSuffixOf lower ||
  lower == "[::1]".data ||
  matchesLoopbackQuad lower

/-- A DNS record as returned by node's lookup with the all option: an
address family number and an address string. -/
structure DnsRecord where
  family : Nat
  address : List Char
deriving DecidableEq

/-- Whether a resolved DNS record points at a private or reserved address,
per the loop body of validateUrl's DNS step. -/
def dnsRecordPrivate (r : DnsRecord) : Bool :=
  (r.family == 4 && isPrivateIPv4L r.address) ||
  (r.family == 6 && isPrivateIPv6L r.address)

/-- Removal of one pair of surrounding brackets from a hostname
(validateUrl's rawHostname computation). -/
def stripBrackets (l : List Char) : List Char :=
  match l with
  | '[' :: rest =>
    if rest ≠ [] ∧ rest.getLast? = some ']' then rest.dropLast else l
  | _ => l

/-- validateUrl from the SSRF urlValidation source, from the point where
the URL has been parsed.  The DNS lookup is passed in as an oracle: none
models a lookup that throws, some recs a successful resolution.  The
source's early-return loop over the records is rendered with any. -/
def validateUrl (dns : Option (List DnsRecord)) (url : UrlObj) :
    UrlValidationResult UrlObj :=
  if url.protocol ≠ "http:" ∧ url.protocol ≠ "https:" then
    .invalid "URL must use http or https protocol."
  else if isLocalhostHostname url.hostname.data then
    .invalid "URLs pointing to localhost are not allowed."
  else
    let rawHostname := stripBrackets url.hostname.data
    if isIPv4L rawHostname then
      if isPrivateIPv4L rawHostname then
        .invalid "URLs pointing to private IP addresses are not allowed."
      else .valid url
    else if isIPv6L url.hostname.data then
      if isPrivateIPv6L rawHostname then
        .invalid "URLs pointing to private IP addresses are not allowed."
      else .valid url
    else
      match dns with
      | none => .invalid "Could not resolve hostname."
      | some recs =>
        if recs.any dnsRecordPrivate then
          .invalid "URL resolves to a private IP address."
        else .valid url

/-- HtmlFetchErrorCode from htmlFetch.ts. -/
inductive HtmlFetchErrorCode
  | fetch_timeout | content_too_large | ssrf_blocked
  | too_many_redirects | fetch_failed | invalid_content_type
deriving DecidableEq

/-- HtmlFetchResult from htmlFetch.ts: success carrying the body, the
content type and the final URL, or a failure code. -/
inductive HtmlFetchResult
  | ok (html : List Char) (contentType : String) (finalUrl : String)
  | err (code : HtmlFetchErrorCode)
deriving DecidableEq

/-- isHtmlContentType from htmlFetch.ts: the lowercased header must
contain text/html or application/xhtml+xml. -/
def isHtmlContentType (contentType : String) : Bool :=
  let lower := lowerL contentType.data
  decide ("text/html".data <:+: lower) ||
  decide ("application/xhtml+xml".data <:+: lower)

/-- Model of parseInt(s, 10) as applied to a Content-Length header: the
value of a leading digit run, NaN (none) when the string does not start
with a digit.  Signs and leading whitespace, which parseInt also accepts
but which do not occur in Content-Length headers, are conflated with
NaN. -/
def jsParseInt (l : List Char) : Option Nat :=
  let ds := l.takeWhile Char.isDigit
  if ds = [] then none
  else some (ds.foldl (fun acc c => acc * 10 + digitVal c) 0)

/-- The response observed by fetchHtml in htmlFetch.ts once got has
resolved: the declared Content-Length header if any, the body and the
content-type header. -/
structure FetchResponseSim where
  contentLength : Option (List Char)
  body : List Char
  contentType : String
  finalUrl : String
deriving DecidableEq

/-- The afterResponse hook of fetchHtml: true when a parseable declared
Content-Length exceeds the limit, which makes the hook throw the error
that handleFetchError maps to content_too_large. -/
def contentLengthExceeds (maxSizeBytes : Nat) (r : FetchResponseSim) :
    Bool :=
  match r.contentLength with
  | none => false
  | some cl =>
    match jsParseInt cl with
    | none => false
    | some n => decide (n > maxSizeBytes)

/-- fetchHtml from htmlFetch.ts for a completed transfer, with the default
2 MiB limit when maxSizeBytes is not overridden.  got's promise API with a
text responseType materialises the entire payload into response.body
before the afterResponse hook or any of the checks below run; the
Content-Length check throws into handleFetchError, then the actual body
size and the content type are checked in order. -/
def fetchHtml (maxSizeBytes : Nat) (r : FetchResponseSim) :
    HtmlFetchResult :=
  if contentLengthExceeds maxSizeBytes r then
    .err .content_too_large
  else if r.body.length > maxSizeBytes then
    .err .content_too_large
  else if !isHtmlContentType r.contentType then
    .err .invalid_content_type
  else
    .ok r.body r.contentType r.finalUrl

/-- DEFAULT_MAX_SIZE_BYTES from htmlFetch.ts: 2 MiB. -/
def DEFAULT_MAX_SIZE_BYTES : Nat := 2 * 1024 * 1024

/-- The number of payload bytes received and buffered by the time
fetchHtml's size checks run: the whole body, in every path, because the
body is fully materialised before the checks (there is no mid-stream
abort in htmlFetch.ts). -/
def fetchBytesBuffered (r : FetchResponseSim) : Nat :=
  r.body.length

/-- RateLimitEntry from rateLimit.ts: a request count and the absolute
expiry instant of the window in milliseconds. -/
structure RateLimitEntry where
  count : Nat
  resetAt : Nat
deriving DecidableEq

/-- The state of the in-memory store of createMemoryStore: the entries
Map, modelled as an association list with Map.get and Map.set
semantics. -/
abbrev StoreState : Type := List (String × RateLimitEntry)

/-- Map.prototype.get on the modelled entries map. -/
def jsMapGet (k : String) : StoreState → Option RateLimitEntry
  | [] => none
  | (k', v) :: rest => if k' = k then some v else jsMapGet k rest

/-- Map.prototype.set on the modelled entries map: replace the entry of an
existing key in place, otherwise append. -/
def jsMapSet (k : String) (v : RateLimitEntry) : StoreState → StoreState
  | [] => [(k, v)]
  | (k', v') :: rest =>
    if k' = k then (k, v) :: rest else (k', v') :: jsMapSet k v rest

/-- The increment operation of createMemoryStore from rateLimit.ts: start
a fresh window with count 1 and resetAt one hard-coded minute from now
when no window exists or the existing window has expired, otherwise
increment the existing window's count. -/
def memoryStoreIncrement (now : Nat) (key : String) (st : StoreState) :
    RateLimitEntry × StoreState :=
  match jsMapGet key st with
  | some existing =>
    if existing.resetAt ≤ now then
      let entry : RateLimitEntry := ⟨1, now + 60 * 1000⟩
      (entry, jsMapSet key entry st)
    else
      let entry : RateLimitEntry := ⟨existing.count + 1, existing.resetAt⟩
      (entry, jsMapSet key entry st)
  | none =>
    let entry : RateLimitEntry := ⟨1, now + 60 * 1000⟩
    (entry, jsMapSet key entry st)

/-- A rate-limit store as consumed by the middleware: the increment
operation, pure over the modelled store state. -/
abbrev RateLimitStore : Type := Nat → String → StoreState → RateLimitEntry × StoreState

/-- RateLimitConfig as accepted by createRateLimitMiddleware: every field
optional, with the defaults of defaultConfig filled in by the spread. -/
structure RateLimitConfig where
  maxRequests : Option Nat
  windowMs : Option Nat
  store : Option RateLimitStore

/-- Math.ceil of a nonnegative integer ratio, as used for the
X-RateLimit-Reset and Retry-After second counts. -/
def jsCeilDiv (a b : Int) : Int :=
  (a + b - 1) / b

/-- The middleware's decision and headers for one request, from
createRateLimitMiddleware in rateLimit.ts. -/
structure RateLimitDecision where
  allowed : Bool
  limit : Nat
  remaining : Int
  resetSeconds : Int
  retryAfter : Option Int
deriving DecidableEq

/-- createRateLimitMiddleware from rateLimit.ts: merge the supplied
config over the defaults, destructure only maxRequests and store, and
return the per-request check.  The check increments the store entry for
the caller's key, computes the headers, and denies with Retry-After once
the count exceeds the limit. -/
def createRateLimitMiddleware (config : RateLimitConfig) :
    Nat → String → StoreState → RateLimitDecision × StoreState :=
  let maxRequests := config.maxRequests.getD 30
  let store := config.store.getD memoryStoreIncrement
  fun now userId st =>
    let key := "rate_limit:" ++ userId
    let (entry, st') := store now key st
    let remaining : Int := max 0 ((maxRequests : Int) - (entry.count : Int))
    let resetSeconds := jsCeilDiv ((entry.resetAt : Int) - (now : Int)) 1000
    if entry.count > maxRequests then
      (⟨false, maxRequests, remaining, resetSeconds, some resetSeconds⟩, st')
    else
      (⟨true, maxRequests, remaining, resetSeconds, none⟩, st')

/-- The middleware as installed by the route, with an empty config. -/
def rateLimitCheck : Nat → String → StoreState → RateLimitDecision × StoreState :=
  createRateLimitMiddleware ⟨none, none, none⟩

/-- The store state after n requests by the same user, the i-th request
arriving at time tau i. -/
def runCalls (tau : Nat → Nat) (userId : String) : Nat → StoreState
  | 0 => []
  | n + 1 => (rateLimitCheck (tau n) userId (runCalls tau userId n)).2

/-- The middleware decision for the request with index n (the (n+1)-th
request) in the call sequence tau. -/
def callDecision (tau : Nat → Nat) (userId : String) (n : Nat) :
    RateLimitDecision :=
  (rateLimitCheck (tau n) userId (runCalls tau userId n)).1

/-- RecipeUrlIngredientsErrorCode from types.ts. -/
inductive ErrorCode
  | invalid_url | unsupported_content | unauthorized | not_found
  | fetch_timeout | content_too_large | parse_failed | rate_limited
  | server_error
deriving DecidableEq

/-- errorCodeToStatusCode from errors.ts. -/
def errorCodeToStatusCode : ErrorCode → Nat
  | .invalid_url => 400
  | .unsupported_content => 400
  | .unauthorized => 401
  | .not_found => 404
  | .fetch_timeout => 408
  | .content_too_large => 413
  | .parse_failed => 422
  | .rate_limited => 429
  | .server_error => 500

/-- mapFetchErrorCode from route.ts. -/
def mapFetchErrorCode : HtmlFetchErrorCode → ErrorCode
  | .fetch_timeout => .fetch_timeout
  | .content_too_large => .content_too_large
  | .ssrf_blocked => .invalid_url
  | .too_many_redirects => .fetch_timeout
  | .invalid_content_type => .unsupported_content
  | .fetch_failed => .server_error

/-- ContentExtractErrorCode from contentExtract.ts. -/
inductive ContentExtractErrorCode
  | parse_failed | no_content
deriving DecidableEq

/-- mapContentErrorCode from route.ts. -/
def mapContentErrorCode : ContentExtractErrorCode → ErrorCode
  | .parse_failed => .unsupported_content
  | .no_content => .unsupported_content

/-- AnthropicClientError codes from anthropicClient.ts. -/
inductive AnthropicErrorCode
  | rate_limit_error | timeout_error | authentication_error
  | api_error | invalid_request_error | unknown_error
deriving DecidableEq

/-- mapAnthropicErrorCode from route.ts. -/
def mapAnthropicErrorCode : AnthropicErrorCode → ErrorCode
  | .rate_limit_error => .rate_limited
  | .timeout_error => .fetch_timeout
  | _ => .server_error

/-- AIExtractErrorCode from aiExtract.ts: the three response-validation
failure classes. -/
inductive AIExtractErrorCode
  | json_parse_error | schema_validation_error | empty_response
deriving DecidableEq

/-- An AIExtractError as thrown by parseAIResponse: a failure class and a
message. -/
structure AIExtractError where
  code : AIExtractErrorCode
  message : String
deriving DecidableEq

/-- hasIngredients from aiExtract.ts. -/
def hasIngredients (extraction : AIExtraction) : Bool :=
  extraction.ingredients.length > 0

/-- ContentExtractResult from contentExtract.ts, reduced to the fields the
route consults. -/
inductive ContentExtractResult
  | ok (content : List Char)
  | err (code : ContentExtractErrorCode) (message : String)
deriving DecidableEq

/-- The outcomes of the stages that the route handler sequences, used as
oracles for the effectful stages: request-body schema validation, URL
validation, fetch, content extraction, the external extraction call, and
parseAIResponse applied to its result (an AIExtraction on success, an
AIExtractError on a response-validation failure). -/
structure StageOutcomes where
  reqUrl : Option String
  urlValidation : UrlValidationResult UrlObj
  fetch : HtmlFetchResult
  content : ContentExtractResult
  aiCall : Except AnthropicErrorCode Unit
  aiParse : Except AIExtractError AIExtraction

/-- An HTTP response of the endpoint: status code and body. -/
inductive RouteResponse
  | success (status : Nat) (body : RecipeUrlIngredientsResponse)
  | failure (status : Nat) (code : ErrorCode) (message : String)
deriving DecidableEq

/-- The status code of a route response. -/
def RouteResponse.status : RouteResponse → Nat
  | .success s _ => s
  | .failure s _ _ => s

/-- extractIngredientsHandler from route.ts combined with the centralized
error middleware of errors.ts: every sendError throws a
RecipeUrlIngredientsError whose status the middleware takes from
errorCodeToStatusCode.  Stage outcomes are supplied by the oracle o; the
control flow, the error-code mappings, the zero-ingredient check and the
final normalizeExtraction follow the source. -/
def extractIngredientsHandler (o : StageOutcomes) : RouteResponse :=
  let sendError := fun (code : ErrorCode) (message : String) =>
    RouteResponse.failure (errorCodeToStatusCode code) code message
  match o.reqUrl with
  | none => sendError .invalid_url "Invalid request body"
  | some rawUrl =>
    match o.urlValidation with
    | .invalid reason => sendError .invalid_url reason
    | .valid _ =>
      match o.fetch with
      | .err fetchCode => sendError (mapFetchErrorCode fetchCode) ""
      | .ok _ _ _ =>
        match o.content with
        | .err contentCode message =>
          sendError (mapContentErrorCode contentCode) message
        | .ok _ =>
          match o.aiCall with
          | .error aiErr => sendError (mapAnthropicErrorCode aiErr) ""
          | .ok _ =>
            match o.aiParse with
            | .error e => sendError .parse_failed e.message
            | .ok extraction =>
              if !hasIngredients extraction then
                sendError .unsupported_content "No ingredients found in page"
              else
                .success 200 (normalizeExtraction extraction rawUrl)

theorem toNat_ofNat_lt (n : Nat) (h : n < 55296) : (Char.ofNat n).toNat = n := by
  have hv : n.isValidChar := Or.inl h
  rw [Char.ofNat, dif_pos hv]
  rfl

theorem lowerChar_of_upper (c : Char) (h : 65 ≤ c.toNat ∧ c.toNat ≤ 90) :
    lowerChar c = Char.ofNat (c.toNat + 32) := by
  unfold lowerChar Char.toLower
  rw [if_pos ⟨h.1, h.2⟩]

theorem lowerChar_of_not_upper (c : Char) (h : ¬(65 ≤ c.toNat ∧ c.toNat ≤ 90)) :
    lowerChar c = c := by
  unfold lowerChar Char.toLower
  rw [if_neg]
  intro hc
  exact h ⟨hc.1, hc.2⟩

theorem lowerChar_idem (c : Char) : lowerChar (lowerChar c) = lowerChar c := by
  by_cases h : 65 ≤ c.toNat ∧ c.toNat ≤ 90
  · rw [lowerChar_of_upper c h]
    apply lowerChar_of_not_upper
    rw [toNat_ofNat_lt (c.toNat + 32) (by omega)]
    omega
  · rw [lowerChar_of_not_upper c h, lowerChar_of_not_upper c h]

theorem lowerChar_space : lowerChar ' ' = ' ' := by decide

theorem map_eq_self_of (l : List Char) (f : Char → Char)
    (h : ∀ c ∈ l, f c = c) : l.map f = l := by
  induction l with
  | nil => rfl
  | cons a t ih =>
    simp only [List.map_cons, h a (List.mem_cons_self a t)]
    rw [ih fun c hc => h c (List.mem_cons_of_mem a hc)]

theorem collapseAux_cons (b : Bool) (c : Char) (cs : List Char) :
    collapseAux b (c :: cs) =
      if isWs c then
        (if b then collapseAux true cs else ' ' :: collapseAux true cs)
      else c :: collapseAux false cs := rfl

theorem collapseAux_cons_ws (b : Bool) (c : Char) (cs : List Char)
    (h : isWs c = true) :
    collapseAux b (c :: cs) =
      if b then collapseAux true cs else ' ' :: collapseAux true cs := by
  rw [collapseAux_cons, if_pos h]

theorem collapseAux_cons_not_ws (b : Bool) (c : Char) (cs : List Char)
    (h : isWs c = false) :
    collapseAux b (c :: cs) = c :: collapseAux false cs := by
  rw [collapseAux_cons, if_neg]
  rw [h]
  simp

theorem mem_collapseAux {c : Char} :
    ∀ (l : List Char) (b : Bool), c ∈ collapseAux b l → c = ' ' ∨ c ∈ l := by
  intro l
  induction l with
  | nil => intro b h; simp [collapseAux] at h
  | cons a t ih =>
    intro b h
    by_cases hw : isWs a = true
    · rw [collapseAux_cons_ws b a t hw] at h
      cases b with
      | true =>
        rcases ih true h with h1 | h1
        · exact Or.inl h1
        · exact Or.inr (List.mem_cons_of_mem a h1)
      | false =>
        rcases List.mem_cons.mp h with h1 | h1
        · exact Or.inl h1
        · rcases ih true h1 with h2 | h2
          · exact Or.inl h2
          · exact Or.inr (List.mem_cons_of_mem a h2)
    · rw [collapseAux_cons_not_ws b a t (Bool.eq_false_iff.mpr hw)] at h
      rcases List.mem_cons.mp h with h1 | h1
      · exact Or.inr (h1 ▸ List.mem_cons_self a t)
      · rcases ih false h1 with h2 | h2
        · exact Or.inl h2
        · exact Or.inr (List.mem_cons_of_mem a h2)

theorem mem_dropWhile {c : Char} (p : Char → Bool) :
    ∀ l : List Char, c ∈ l.dropWhile p → c ∈ l := by
  intro l
  induction l with
  | nil => intro h; simp at h
  | cons a t ih =>
    intro h
    rw [List.dropWhile_cons] at h
    by_cases hp : p a
    · rw [if_pos hp] at h
      exact List.mem_cons_of_mem a (ih h)
    · rw [if_neg hp] at h
      exact h

theorem mem_jsTrim {c : Char} (l : List Char) (h : c ∈ jsTrim l) : c ∈ l := by
  unfold jsTrim trimRight trimLeft at h
  rw [List.mem_reverse] at h
  have h1 := mem_dropWhile isWs _ h
  rw [List.mem_reverse] at h1
  exact mem_dropWhile isWs l h1

theorem head?_dropWhile (p : Char → Bool) :
    ∀ (l : List Char) (c : Char), (l.dropWhile p).head? = some c → p c = false := by
  intro l
  induction l with
  | nil => intro c h; simp at h
  | cons a t ih =>
    intro c h
    rw [List.dropWhile_cons] at h
    by_cases hp : p a
    · rw [if_pos hp] at h
      exact ih c h
    · rw [if_neg hp] at h
      simp only [List.head?_cons, Option.some.injEq] at h
      rw [← h]
      exact Bool.eq_false_iff.mpr hp

theorem getLast?_trimRight (l : List Char) (c : Char)
    (h : (trimRight l).getLast? = some c) : isWs c = false := by
  unfold trimRight at h
  rw [List.getLast?_reverse] at h
  exact head?_dropWhile isWs l.reverse c h

theorem head?_append_left (l1 l2 : List Char) (h : l1 ≠ []) :
    (l1 ++ l2).head? = l1.head? := by
  cases l1 with
  | nil => exact absurd rfl h
  | cons a t => rfl

theorem trimRight_decomp (l : List Char) :
    trimRight l ++ (l.reverse.takeWhile isWs).reverse = l := by
  unfold trimRight
  rw [← List.reverse_append, List.takeWhile_append_dropWhile, List.reverse_reverse]

theorem head?_trimRight (l : List Char)
    (h : ∀ c, l.head? = some c → isWs c = false) :
    ∀ c, (trimRight l).head? = some c → isWs c = false := by
  intro c hc
  by_cases hn : trimRight l = []
  · rw [hn] at hc
    simp at hc
  · apply h
    rw [← trimRight_decomp l, head?_append_left _ _ hn]
    exact hc

theorem head?_jsTrim (l : List Char) :
    ∀ c, (jsTrim l).head? = some c → isWs c = false := by
  unfold jsTrim
  exact head?_trimRight (trimLeft l) (head?_dropWhile isWs l)

theorem getLast?_jsTrim (l : List Char) :
    ∀ c, (jsTrim l).getLast? = some c → isWs c = false := by
  unfold jsTrim
  exact fun c => getLast?_trimRight (trimLeft l) c

theorem trimLeft_eq_self (l : List Char)
    (h : ∀ c, l.head? = some c → isWs c = false) : trimLeft l = l := by
  cases l with
  | nil => rfl
  | cons a t =>
    unfold trimLeft
    rw [List.dropWhile_cons, if_neg]
    rw [h a rfl]
    simp

theorem trimRight_eq_self (l : List Char)
    (h : ∀ c, l.getLast? = some c → isWs c = false) : trimRight l = l := by
  unfold trimRight
  have hrev : l.reverse.dropWhile isWs = l.reverse := by
    apply trimLeft_eq_self
    intro c hc
    rw [List.head?_reverse] at hc
    exact h c hc
  rw [hrev, List.reverse_reverse]

theorem jsTrim_eq_self (l : List Char)
    (h1 : ∀ c, l.head? = some c → isWs c = false)
    (h2 : ∀ c, l.getLast? = some c → isWs c = false) : jsTrim l = l := by
  unfold jsTrim
  rw [trimLeft_eq_self l h1, trimRight_eq_self l h2]

theorem jsTrim_idem (l : List Char) : jsTrim (jsTrim l) = jsTrim l :=
  jsTrim_eq_self (jsTrim l) (head?_jsTrim l) (getLast?_jsTrim l)

theorem collapseAux_idem (l : List Char) :
    ∀ b, collapseAux b (collapseAux b l) = collapseAux b l := by
  induction l with
  | nil => intro b; rfl
  | cons a t ih =>
    intro b
    by_cases hw : isWs a = true
    · cases b with
      | true =>
        rw [collapseAux_cons_ws true a t hw]
        simp only [if_true]
        exact ih true
      | false =>
        rw [collapseAux_cons_ws false a t hw]
        simp only [if_false, Bool.false_eq_true]
        rw [collapseAux_cons_ws false ' ' _ (by decide)]
        simp only [if_false, Bool.false_eq_true]
        rw [ih true]
    · have hw' : isWs a = false := Bool.eq_false_iff.mpr hw
      rw [collapseAux_cons_not_ws b a t hw',
        collapseAux_cons_not_ws b a _ hw', ih false]

theorem collapseAux_false_ne_nil (l : List Char) (h : l ≠ []) :
    collapseAux false l ≠ [] := by
  cases l with
  | nil => exact absurd rfl h
  | cons a t =>
    by_cases hw : isWs a = true
    · rw [collapseAux_cons_ws false a t hw]
      simp
    · rw [collapseAux_cons_not_ws false a t (Bool.eq_false_iff.mpr hw)]
      simp

theorem collapseAux_true_all_ws (l : List Char) (h : collapseAux true l = []) :
    l.all isWs = true := by
  induction l with
  | nil => rfl
  | cons a t ih =>
    by_cases hw : isWs a = true
    · rw [collapseAux_cons_ws true a t hw] at h
      simp only [if_true] at h
      simp only [List.all_cons, hw, Bool.true_and]
      exact ih h
    · rw [collapseAux_cons_not_ws true a t (Bool.eq_false_iff.mpr hw)] at h
      simp at h

theorem head?_collapseWs (l : List Char)
    (h : ∀ c, l.head? = some c → isWs c = false) :
    ∀ c, (collapseWs l).head? = some c → isWs c = false := by
  intro c hc
  cases l with
  | nil => simp [collapseWs, collapseAux] at hc
  | cons a t =>
    have ha : isWs a = false := h a rfl
    unfold collapseWs at hc
    rw [collapseAux_cons_not_ws false a t ha] at hc
    simp only [List.head?_cons, Option.some.injEq] at hc
    rw [← hc]
    exact ha

theorem getLast?_collapseAux (l : List Char) :
    ∀ b, (∀ c, l.getLast? = some c → isWs c = false) →
    ∀ c, (collapseAux b l).getLast? = some c → isWs c = false := by
  induction l with
  | nil => intro b _ c hc; simp [collapseAux] at hc
  | cons a t ih =>
    intro b h c hc
    by_cases hw : isWs a = true
    · have ht : t ≠ [] := by
        intro he
        subst he
        have hfa := h a rfl
        rw [hw] at hfa
        exact Bool.noConfusion hfa
      have hlast : ∀ d, t.getLast? = some d → isWs d = false := by
        intro d hd
        apply h
        cases t with
        | nil => exact absurd rfl ht
        | cons x xs => rw [List.getLast?_cons_cons]; exact hd
      have htne : collapseAux true t ≠ [] := by
        intro he
        have hall := collapseAux_true_all_ws t he
        cases hlt : t.getLast? with
        | none => exact ht (List.getLast?_eq_none_iff.mp hlt)
        | some d =>
          have hd := hlast d hlt
          have hmem : d ∈ t := List.mem_of_mem_getLast? hlt
          rw [List.all_eq_true] at hall
          rw [hall d hmem] at hd
          exact Bool.noConfusion hd
      rw [collapseAux_cons_ws b a t hw] at hc
      cases b with
      | true =>
        simp only [if_true] at hc
        exact ih true hlast c hc
      | false =>
        simp only [if_false, Bool.false_eq_true] at hc
        rcases List.exists_cons_of_ne_nil htne with ⟨x, xs, hx⟩
        rw [hx, List.getLast?_cons_cons, ← hx] at hc
        exact ih true hlast c hc
    · have hw' : isWs a = false := Bool.eq_false_iff.mpr hw
      rw [collapseAux_cons_not_ws b a t hw'] at hc
      cases ht : t with
      | nil =>
        subst ht
        simp only [collapseAux, List.getLast?_singleton, Option.some.injEq] at hc
        rw [← hc]
        exact hw'
      | cons x xs =>
        subst ht
        have hlast : ∀ d, (x :: xs).getLast? = some d → isWs d = false := by
          intro d hd
          apply h
          rw [List.getLast?_cons_cons]
          exact hd
        have htne : collapseAux false (x :: xs) ≠ [] :=
          collapseAux_false_ne_nil _ (by simp)
        rcases List.exists_cons_of_ne_nil htne with ⟨y, ys, hy⟩
        rw [hy, List.getLast?_cons_cons, ← hy] at hc
        exact ih false hlast c hc

theorem head?_normalizeWhitespaceL (l : List Char) :
    ∀ c, (normalizeWhitespaceL l).head? = some c → isWs c = false := by
  unfold normalizeWhitespaceL
  exact head?_collapseWs (jsTrim l) (head?_jsTrim l)

theorem getLast?_normalizeWhitespaceL (l : List Char) :
    ∀ c, (normalizeWhitespaceL l).getLast? = some c → isWs c = false := by
  unfold normalizeWhitespaceL collapseWs
  exact getLast?_collapseAux (jsTrim l) false (getLast?_jsTrim l)

theorem mem_normalizeWhitespaceL {c : Char} (l : List Char)
    (h : c ∈ normalizeWhitespaceL l) : c = ' ' ∨ c ∈ l := by
  unfold normalizeWhitespaceL collapseWs at h
  rcases mem_collapseAux (jsTrim l) false h with h1 | h1
  · exact Or.inl h1
  · exact Or.inr (mem_jsTrim l h1)

theorem normalizeWhitespaceL_idem (l : List Char) :
    normalizeWhitespaceL (normalizeWhitespaceL l) = normalizeWhitespaceL l := by
  conv_lhs => rw [normalizeWhitespaceL]
  rw [jsTrim_eq_self (normalizeWhitespaceL l) (head?_normalizeWhitespaceL l)
    (getLast?_normalizeWhitespaceL l)]
  unfold normalizeWhitespaceL collapseWs
  exact collapseAux_idem (jsTrim l) false

theorem lowerL_fixes_clean (l : List Char) :
    lowerL (normalizeWhitespaceL (lowerL l)) = normalizeWhitespaceL (lowerL l) := by
  apply map_eq_self_of
  intro c hc
  rcases mem_normalizeWhitespaceL (lowerL l) hc with h1 | h1
  · rw [h1]
    exact lowerChar_space
  · rcases List.mem_map.mp h1 with ⟨d, _, hd⟩
    rw [← hd]
    exact lowerChar_idem d

theorem cleanUnitL_idem (l : List Char) :
    normalizeWhitespaceL (lowerL (normalizeWhitespaceL (lowerL l))) =
      normalizeWhitespaceL (lowerL l) := by
  rw [lowerL_fixes_clean l, normalizeWhitespaceL_idem]

theorem data_mk (l : List Char) : (String.mk l).data = l := rfl

theorem cleanUnit_idem (s : String) : cleanUnit (cleanUnit s) = cleanUnit s := by
  unfold cleanUnit
  rw [data_mk, cleanUnitL_idem]

theorem assocLookup_mem {α : Type} (k : String) (v : α) :
    ∀ m : List (String × α), assocLookup k m = some v → (k, v) ∈ m := by
  intro m
  induction m with
  | nil => intro h; simp [assocLookup] at h
  | cons p rest ih =>
    intro h
    rcases p with ⟨k2, v2⟩
    unfold assocLookup at h
    by_cases hk : k = k2
    · rw [if_pos hk] at h
      simp only [Option.some.injEq] at h
      rw [← h, hk]
      exact List.mem_cons_self _ _
    · rw [if_neg hk] at h
      exact List.mem_cons_of_mem _ (ih h)

theorem unitMappings_canonical :
    ∀ p ∈ UNIT_MAPPINGS,
      assocLookup p.2 UNIT_MAPPINGS = some p.2 ∧
      cleanUnit p.2 = p.2 ∧ p.2 ≠ "" := by decide

theorem normalizeUnit_some (s : String) :
    normalizeUnit (some s) =
      if cleanUnit s = "" then none
      else some ((assocLookup (cleanUnit s) UNIT_MAPPINGS).getD (cleanUnit s)) :=
  rfl

theorem normalizeUnit_idem (u : Option String) :
    normalizeUnit (normalizeUnit u) = normalizeUnit u := by
  cases u with
  | none => rfl
  | some s =>
    by_cases hc : cleanUnit s = ""
    · rw [normalizeUnit_some, if_pos hc]
      rfl
    · rw [normalizeUnit_some, if_neg hc]
      cases hl : assocLookup (cleanUnit s) UNIT_MAPPINGS with
      | some w =>
        have hmem := assocLookup_mem (cleanUnit s) w UNIT_MAPPINGS hl
        have hcan := unitMappings_canonical (cleanUnit s, w) hmem
        have h1 : assocLookup w UNIT_MAPPINGS = some w := hcan.1
        have h2 : cleanUnit w = w := hcan.2.1
        have h3 : w ≠ "" := hcan.2.2
        show normalizeUnit (some w) = _
        rw [normalizeUnit_some, h2, if_neg h3, h1]
        rfl
      | none =>
        show normalizeUnit (some (cleanUnit s)) = _
        rw [normalizeUnit_some, cleanUnit_idem s, if_neg hc, hl]

/-- Claim C8: normalizeUnit is case- and whitespace-insensitive and
idempotent: normalizing an already-normalized unit is the identity and,
more generally, normalizeUnit of any input equals normalizeUnit of its
cleaned (trimmed, whitespace-collapsed, lowercased) form; Tablespoons,
TBSP and tbs all map to tbsp; and an unmapped unit passes through as its
cleaned form rather than being rejected. -/
theorem normalizeUnit_spec :
    (∀ u, normalizeUnit (normalizeUnit u) = normalizeUnit u) ∧
    normalizeUnit (some "Tablespoons") = some "tbsp" ∧
    normalizeUnit (some "TBSP") = some "tbsp" ∧
    normalizeUnit (some "tbs") = some "tbsp" ∧
    (∀ s, normalizeUnit (some s) = normalizeUnit (some (cleanUnit s))) ∧
    (∀ s, assocLookup (cleanUnit s) UNIT_MAPPINGS = none → cleanUnit s ≠ "" →
      normalizeUnit (some s) = some (cleanUnit s)) := by
  refine ⟨normalizeUnit_idem, by decide, by decide, by decide, ?_, ?_⟩
  · intro s
    rw [normalizeUnit_some s, normalizeUnit_some (cleanUnit s), cleanUnit_idem s]
  · intro s h1 h2
    rw [normalizeUnit_some, if_neg h2, h1]
    rfl

theorem normalizeUnit_spec_witness :
    assocLookup (cleanUnit "glugs") UNIT_MAPPINGS = none ∧
    cleanUnit "glugs" ≠ "" ∧
    normalizeUnit (some "glugs") = some (cleanUnit "glugs") :=
  ⟨by decide, by decide,
    normalizeUnit_spec.2.2.2.2.2 "glugs" (by decide) (by decide)⟩

/-- Claim C1: contrary to the claim, normalizeIngredient does not carry
the input ingredient's category into its result: the returned object
literal has no category field, so the normalized ingredient of a 200
response body lacks the required category.  Evaluated at a concrete
schema-valid ingredient with category Produce. -/
theorem normalizeIngredient_drops_category :
    normalizeIngredient
        ⟨"  Garlic  ", some 3, some "Cloves", some " minced ",
          IngredientCategory.Produce⟩ =
      ⟨"garlic", some 3, some "clove", some "minced", none⟩ ∧
    hasRequiredCategory
        (normalizeIngredient
          ⟨"  Garlic  ", some 3, some "Cloves", some " minced ",
            IngredientCategory.Produce⟩) = false ∧
    ((normalizeExtraction
        ⟨some " Garlic  Bread ", some " 4 ",
          [⟨"  Garlic  ", some 3, some "Cloves", some " minced ",
            IngredientCategory.Produce⟩]⟩
        "https://example.com/recipe").ingredients.all
      hasRequiredCategory) = false := by
  refine ⟨by decide, by decide, by decide⟩

theorem jsTrim_cons_ws (c : Char) (l : List Char) (h : isWs c = true) :
    jsTrim (c :: l) = jsTrim l := by
  unfold jsTrim trimLeft
  rw [List.dropWhile_cons, if_pos h]

theorem trimRight_append_ws (l : List Char) (c : Char) (h : isWs c = true) :
    trimRight (l ++ [c]) = trimRight l := by
  unfold trimRight
  rw [List.reverse_append]
  show ((c :: l.reverse).dropWhile isWs).reverse = _
  rw [List.dropWhile_cons, if_pos h]

theorem jsTrim_append_ws (l : List Char) (c : Char) (h : isWs c = true) :
    jsTrim (l ++ [c]) = jsTrim l := by
  unfold jsTrim
  rw [show trimLeft (l ++ [c]) = (l ++ [c]).dropWhile isWs from rfl,
    List.dropWhile_append]
  by_cases he : (l.dropWhile isWs).isEmpty
  · rw [if_pos he]
    have hl : trimLeft l = [] := by
      unfold trimLeft
      exact List.isEmpty_iff.mp he
    rw [hl]
    show trimRight ([c].dropWhile isWs) = trimRight []
    rw [List.dropWhile_cons, if_pos h]
    rfl
  · rw [if_neg he]
    exact trimRight_append_ws (l.dropWhile isWs) c h

theorem jsTrim_pad (p : List Char) :
    jsTrim ('\n' :: (p ++ ['\n'])) = jsTrim p := by
  rw [jsTrim_cons_ws '\n' _ (by decide), jsTrim_append_ws p '\n' (by decide)]

theorem stripFence_core (p : List Char) :
    ('\n' :: (p ++ '\n' :: fenceTicks)).drop
        (('\n' :: (p ++ '\n' :: fenceTicks)).length - 3) = fenceTicks ∧
    3 ≤ ('\n' :: (p ++ '\n' :: fenceTicks)).length ∧
    jsTrim (('\n' :: (p ++ '\n' :: fenceTicks)).take
        (('\n' :: (p ++ '\n' :: fenceTicks)).length - 3)) = jsTrim p := by
  have hm : '\n' :: (p ++ '\n' :: fenceTicks) =
      ('\n' :: (p ++ ['\n'])) ++ fenceTicks := by
    simp
  have hfl : ('\n' :: (p ++ ['\n'])).length = p.length + 2 := by
    simp
  have hml : ('\n' :: (p ++ '\n' :: fenceTicks)).length = p.length + 5 := by
    simp [fenceTicks]
  have hsub : ('\n' :: (p ++ '\n' :: fenceTicks)).length - 3 = p.length + 2 := by
    omega
  refine ⟨?_, by omega, ?_⟩
  · rw [hsub, hm]
    exact List.drop_left' hfl
  · rw [hsub, hm, List.take_left' hfl]
    exact jsTrim_pad p

theorem stripFence_wrapFence (lang : Bool) (p : List Char) :
    stripMarkdownCodeBlocksL (wrapFence lang p) = jsTrim p := by
  have hcore := stripFence_core p
  cases lang with
  | true =>
    have hw : wrapFence true p =
        fenceTicks ++
          ('j' :: 's' :: 'o' :: 'n' :: ('\n' :: (p ++ '\n' :: fenceTicks))) := by
      simp [wrapFence]
    rw [hw]
    dsimp only [stripMarkdownCodeBlocksL]
    rw [if_pos (List.take_left' (by rfl)), List.drop_left' (by rfl)]
    have hcond : List.map lowerChar
        ((('j' :: 's' :: 'o' :: 'n' ::
          ('\n' :: (p ++ '\n' :: fenceTicks)))).take 4) = ['j', 's', 'o', 'n'] := by
      show List.map lowerChar ['j', 's', 'o', 'n'] = ['j', 's', 'o', 'n']
      decide
    rw [if_pos hcond]
    have hA : 3 ≤ (('j' :: 's' :: 'o' :: 'n' ::
          ('\n' :: (p ++ '\n' :: fenceTicks))).drop 4).length ∧
        (('j' :: 's' :: 'o' :: 'n' ::
          ('\n' :: (p ++ '\n' :: fenceTicks))).drop 4).drop
          ((('j' :: 's' :: 'o' :: 'n' ::
            ('\n' :: (p ++ '\n' :: fenceTicks))).drop 4).length - 3) =
          fenceTicks :=
      ⟨hcore.2.1, hcore.1⟩
    rw [if_pos hA]
    exact hcore.2.2
  | false =>
    have hw : wrapFence false p =
        fenceTicks ++ ('\n' :: (p ++ '\n' :: fenceTicks)) := by
      simp [wrapFence]
    rw [hw]
    dsimp only [stripMarkdownCodeBlocksL]
    rw [if_pos (List.take_left' (by rfl)), List.drop_left' (by rfl)]
    have hcond : ¬(List.map lowerChar
        (('\n' :: (p ++ '\n' :: fenceTicks)).take 4) = ['j', 's', 'o', 'n']) := by
      rw [List.take_succ_cons, List.map_cons]
      intro h
      have h1 := List.head_eq_of_cons_eq h
      revert h1
      decide
    rw [if_neg hcond]
    have hA : 3 ≤ ('\n' :: (p ++ '\n' :: fenceTicks)).length ∧
        ('\n' :: (p ++ '\n' :: fenceTicks)).drop
          (('\n' :: (p ++ '\n' :: fenceTicks)).length - 3) = fenceTicks :=
      ⟨hcore.2.1, hcore.1⟩
    rw [if_pos hA]
    exact hcore.2.2

theorem wrapFence_assoc (lang : Bool) (p : List Char) :
    wrapFence lang p =
      (fenceTicks ++ (if lang then ['j', 's', 'o', 'n'] else []) ++
        ('\n' :: (p ++ ['\n']))) ++ fenceTicks := by
  simp [wrapFence]

theorem head?_wrapFence (lang : Bool) (p : List Char) :
    ∀ c, (wrapFence lang p).head? = some c → isWs c = false := by
  intro c hc
  rw [show (wrapFence lang p).head? = some tick from by cases lang <;> rfl] at hc
  simp only [Option.some.injEq] at hc
  rw [← hc]
  decide

theorem getLast?_wrapFence (lang : Bool) (p : List Char) :
    ∀ c, (wrapFence lang p).getLast? = some c → isWs c = false := by
  intro c hc
  rw [wrapFence_assoc, List.getLast?_append] at hc
  rw [show fenceTicks.getLast? = some tick from rfl] at hc
  rw [show (some tick).or ((fenceTicks ++
      (if lang then ['j', 's', 'o', 'n'] else []) ++
      ('\n' :: (p ++ ['\n']))).getLast?) = some tick from rfl] at hc
  simp only [Option.some.injEq] at hc
  rw [← hc]
  decide

theorem jsTrim_wrapFence (lang : Bool) (p : List Char) :
    jsTrim (wrapFence lang p) = wrapFence lang p :=
  jsTrim_eq_self _ (head?_wrapFence lang p) (getLast?_wrapFence lang p)

theorem wrapFence_ne_nil (lang : Bool) (p : List Char) :
    wrapFence lang p ≠ [] := by
  cases lang <;> simp [wrapFence, fenceTicks]

theorem parseAIResponseWith_wrap (α : Type) (rest : List Char → α)
    (emptyResult : α) (lang : Bool) (p : List Char) :
    parseAIResponseWith rest emptyResult (wrapFence lang p) =
      rest (jsTrim p) := by
  unfold parseAIResponseWith
  rw [jsTrim_wrapFence, if_neg (wrapFence_ne_nil lang p),
    stripFence_wrapFence lang p]

/-- Claim C9: an extraction-service payload wrapped in a single markdown
code fence, with or without a json language tag, is parsed identically to
the unwrapped payload: for any continuation (JSON parsing plus schema
validation) the pipeline of parseAIResponse produces the same result on
the wrapped and the unwrapped content, for every payload that is not
itself whitespace-only and does not itself open with a code fence. -/
theorem parseAIResponse_fence_invariant {α : Type} (rest : List Char → α)
    (emptyResult : α) (p : List Char) (hne : jsTrim p ≠ [])
    (hnf : (jsTrim p).take 3 ≠ fenceTicks) :
    parseAIResponseWith rest emptyResult (wrapFence true p) =
      parseAIResponseWith rest emptyResult p ∧
    parseAIResponseWith rest emptyResult (wrapFence false p) =
      parseAIResponseWith rest emptyResult p := by
  have hplain : parseAIResponseWith rest emptyResult p = rest (jsTrim p) := by
    unfold parseAIResponseWith
    rw [if_neg hne]
    congr 1
    dsimp only [stripMarkdownCodeBlocksL]
    rw [if_neg hnf]
    exact jsTrim_idem p
  refine ⟨?_, ?_⟩ <;> rw [parseAIResponseWith_wrap, hplain]

theorem parseAIResponse_fence_invariant_witness :
    jsTrim "ok".data ≠ [] ∧ (jsTrim "ok".data).take 3 ≠ fenceTicks ∧
    parseAIResponseWith id [] (wrapFence true "ok".data) =
      parseAIResponseWith id [] "ok".data ∧
    parseAIResponseWith id [] (wrapFence false "ok".data) =
      parseAIResponseWith id [] "ok".data := by
  have hmain := parseAIResponse_fence_invariant id ([] : List Char) "ok".data
    (by decide) (by decide)
  exact ⟨by decide, by decide, hmain.1, hmain.2⟩

theorem jsMapGet_set_self (k : String) (v : RateLimitEntry) (st : StoreState) :
    jsMapGet k (jsMapSet k v st) = some v := by
  induction st with
  | nil => simp [jsMapGet, jsMapSet]
  | cons p rest ih =>
    rcases p with ⟨k2, v2⟩
    unfold jsMapSet
    by_cases hk : k2 = k
    · rw [if_pos hk]
      simp [jsMapGet]
    · rw [if_neg hk]
      unfold jsMapGet
      rw [if_neg hk]
      exact ih

theorem storeInc_fresh (now : Nat) (key : String) (st : StoreState)
    (h : jsMapGet key st = none) :
    memoryStoreIncrement now key st =
      (⟨1, now + 60 * 1000⟩, jsMapSet key ⟨1, now + 60 * 1000⟩ st) := by
  unfold memoryStoreIncrement
  rw [h]

theorem storeInc_expired (now : Nat) (key : String) (st : StoreState)
    (e : RateLimitEntry) (h : jsMapGet key st = some e)
    (hexp : e.resetAt ≤ now) :
    memoryStoreIncrement now key st =
      (⟨1, now + 60 * 1000⟩, jsMapSet key ⟨1, now + 60 * 1000⟩ st) := by
  unfold memoryStoreIncrement
  rw [h]
  dsimp only
  rw [if_pos hexp]

theorem storeInc_live (now : Nat) (key : String) (st : StoreState)
    (e : RateLimitEntry) (h : jsMapGet key st = some e)
    (hexp : ¬(e.resetAt ≤ now)) :
    memoryStoreIncrement now key st =
      (⟨e.count + 1, e.resetAt⟩, jsMapSet key ⟨e.count + 1, e.resetAt⟩ st) := by
  unfold memoryStoreIncrement
  rw [h]
  dsimp only
  rw [if_neg hexp]

theorem rateLimitCheck_fst (now : Nat) (uid : String) (st : StoreState) :
    (rateLimitCheck now uid st).1 =
      (if (memoryStoreIncrement now ("rate_limit:" ++ uid) st).1.count > 30 then
        ⟨false, 30,
          max 0 ((30 : Int) -
            ((memoryStoreIncrement now ("rate_limit:" ++ uid) st).1.count : Int)),
          jsCeilDiv
            (((memoryStoreIncrement now ("rate_limit:" ++ uid) st).1.resetAt : Int) -
              (now : Int)) 1000,
          some (jsCeilDiv
            (((memoryStoreIncrement now ("rate_limit:" ++ uid) st).1.resetAt : Int) -
              (now : Int)) 1000)⟩
      else
        ⟨true, 30,
          max 0 ((30 : Int) -
            ((memoryStoreIncrement now ("rate_limit:" ++ uid) st).1.count : Int)),
          jsCeilDiv
            (((memoryStoreIncrement now ("rate_limit:" ++ uid) st).1.resetAt : Int) -
              (now : Int)) 1000,
          none⟩) := by
  unfold rateLimitCheck createRateLimitMiddleware
  dsimp only [Option.getD]
  split <;> rfl

theorem rateLimitCheck_snd (now : Nat) (uid : String) (st : StoreState) :
    (rateLimitCheck now uid st).2 =
      (memoryStoreIncrement now ("rate_limit:" ++ uid) st).2 := by
  unfold rateLimitCheck createRateLimitMiddleware
  dsimp only [Option.getD]
  split <;> rfl

theorem rateLimitCheck_allowed_of (now : Nat) (uid : String) (st : StoreState)
    (h : (memoryStoreIncrement now ("rate_limit:" ++ uid) st).1.count ≤ 30) :
    (rateLimitCheck now uid st).1.allowed = true := by
  rw [rateLimitCheck_fst, if_neg (by omega)]

theorem rateLimitCheck_denied_of (now : Nat) (uid : String) (st : StoreState)
    (h : (memoryStoreIncrement now ("rate_limit:" ++ uid) st).1.count > 30) :
    (rateLimitCheck now uid st).1.allowed = false ∧
    (rateLimitCheck now uid st).1.retryAfter =
      some (jsCeilDiv
        (((memoryStoreIncrement now ("rate_limit:" ++ uid) st).1.resetAt : Int) -
          (now : Int)) 1000) := by
  rw [rateLimitCheck_fst, if_pos h]
  exact ⟨rfl, rfl⟩

theorem runCalls_window (tau : Nat → Nat) (uid : String) :
    ∀ n, 1 ≤ n → (∀ i, i < n → tau 0 ≤ tau i ∧ tau i < tau 0 + 60000) →
      runCalls tau uid n = [("rate_limit:" ++ uid, ⟨n, tau 0 + 60 * 1000⟩)] := by
  intro n
  induction n with
  | zero => intro h; omega
  | succ m ih =>
    intro _ hbound
    by_cases hm0 : m = 0
    · subst hm0
      show (rateLimitCheck (tau 0) uid (runCalls tau uid 0)).2 = _
      rw [rateLimitCheck_snd,
        show runCalls tau uid 0 = ([] : StoreState) from rfl,
        storeInc_fresh (tau 0) ("rate_limit:" ++ uid) [] rfl]
      rfl
    · have hmge : 1 ≤ m := by omega
      have hstate := ih hmge fun i hi => hbound i (by omega)
      show (rateLimitCheck (tau m) uid (runCalls tau uid m)).2 = _
      rw [rateLimitCheck_snd, hstate]
      have hget : jsMapGet ("rate_limit:" ++ uid)
          [("rate_limit:" ++ uid, (⟨m, tau 0 + 60 * 1000⟩ : RateLimitEntry))] =
          some ⟨m, tau 0 + 60 * 1000⟩ := by
        simp [jsMapGet]
      have hlive : ¬((⟨m, tau 0 + 60 * 1000⟩ : RateLimitEntry).resetAt ≤ tau m) := by
        have := hbound m (by omega)
        show ¬(tau 0 + 60 * 1000 ≤ tau m)
        omega
      rw [storeInc_live (tau m) _ _ _ hget hlive]
      simp [jsMapSet]

/-- Claim C2: for the RateLimiter with its default limit 30 and 60 second
window, and any sequence of requests of one identity all falling inside
the first request's window, the first 30 requests are allowed, the 31st
is denied with Retry-After strictly positive and at most 60 seconds, and
the first request after the window's resetAt has passed is allowed again
with the window's count reset to 1 and resetAt set to that request's time
plus the window length. -/
theorem rateLimiter_window_spec (tau : Nat → Nat) (uid : String)
    (h : ∀ i, i ≤ 30 → tau 0 ≤ tau i ∧ tau i < tau 0 + 60000) :
    (∀ k, k < 30 → (callDecision tau uid k).allowed = true) ∧
    (callDecision tau uid 30).allowed = false ∧
    (∃ ra, (callDecision tau uid 30).retryAfter = some ra ∧
      0 < ra ∧ ra ≤ 60) ∧
    (∀ t, tau 0 + 60000 ≤ t →
      (rateLimitCheck t uid (runCalls tau uid 31)).1.allowed = true ∧
      (rateLimitCheck t uid (runCalls tau uid 31)).2 =
        [("rate_limit:" ++ uid, ⟨1, t + 60 * 1000⟩)]) := by
  have hkey : ∀ (e : RateLimitEntry),
      jsMapGet ("rate_limit:" ++ uid) [("rate_limit:" ++ uid, e)] = some e := by
    intro e
    simp [jsMapGet]
  have hliveAt : ∀ (cnt j : Nat), j ≤ 30 →
      ¬((⟨cnt, tau 0 + 60 * 1000⟩ : RateLimitEntry).resetAt ≤ tau j) := by
    intro cnt j hj
    have := h j hj
    show ¬(tau 0 + 60 * 1000 ≤ tau j)
    omega
  have hst30 := runCalls_window tau uid 30 (by omega)
    (fun i hi => h i (by omega))
  have hinc30 : memoryStoreIncrement (tau 30) ("rate_limit:" ++ uid)
      (runCalls tau uid 30) =
      (⟨31, tau 0 + 60 * 1000⟩,
        jsMapSet ("rate_limit:" ++ uid) ⟨31, tau 0 + 60 * 1000⟩
          [("rate_limit:" ++ uid, ⟨30, tau 0 + 60 * 1000⟩)]) := by
    rw [hst30]
    exact storeInc_live _ _ _ _ (hkey _) (hliveAt 30 30 (by omega))
  refine ⟨?_, ?_, ?_, ?_⟩
  · intro k hk
    unfold callDecision
    by_cases hk0 : k = 0
    · subst hk0
      apply rateLimitCheck_allowed_of
      rw [show runCalls tau uid 0 = ([] : StoreState) from rfl,
        storeInc_fresh (tau 0) ("rate_limit:" ++ uid) [] rfl]
      show 1 ≤ 30
      omega
    · have hstk := runCalls_window tau uid k (by omega)
        (fun i hi => h i (by omega))
      apply rateLimitCheck_allowed_of
      rw [hstk, storeInc_live _ _ _ _ (hkey _) (hliveAt k k (by omega))]
      show k + 1 ≤ 30
      omega
  · unfold callDecision
    exact (rateLimitCheck_denied_of _ _ _ (by rw [hinc30]; show 31 > 30; omega)).1
  · unfold callDecision
    have hd := rateLimitCheck_denied_of (tau 30) uid (runCalls tau uid 30)
      (by rw [hinc30]; show 31 > 30; omega)
    rw [hinc30] at hd
    refine ⟨_, hd.2, ?_, ?_⟩
    · have h30 := h 30 (by omega)
      show 0 < jsCeilDiv (((tau 0 + 60 * 1000 : Nat) : Int) - (tau 30 : Int)) 1000
      unfold jsCeilDiv
      push_cast
      omega
    · have h30 := h 30 (by omega)
      show jsCeilDiv (((tau 0 + 60 * 1000 : Nat) : Int) - (tau 30 : Int)) 1000 ≤ 60
      unfold jsCeilDiv
      push_cast
      omega
  · intro t ht
    have hst31 := runCalls_window tau uid 31 (by omega)
      (fun i hi => h i (by omega))
    have hexp : ((⟨31, tau 0 + 60 * 1000⟩ : RateLimitEntry)).resetAt ≤ t := by
      show tau 0 + 60 * 1000 ≤ t
      omega
    constructor
    · apply rateLimitCheck_allowed_of
      rw [hst31, storeInc_expired t _ _ _ (hkey _) hexp]
      show 1 ≤ 30
      omega
    · rw [rateLimitCheck_snd, hst31, storeInc_expired t _ _ _ (hkey _) hexp]
      simp [jsMapSet]

theorem rateLimiter_window_spec_witness :
    (callDecision (fun _ => 7) "u" 0).allowed = true ∧
    (callDecision (fun _ => 7) "u" 30).allowed = false ∧
    (∃ ra, (callDecision (fun _ => 7) "u" 30).retryAfter = some ra ∧
      0 < ra ∧ ra ≤ 60) ∧
    (rateLimitCheck 70000 "u" (runCalls (fun _ => 7) "u" 31)).1.allowed = true := by
  have hmain := rateLimiter_window_spec (fun _ => 7) "u"
    (by intro i _; show (7 : Nat) ≤ 7 ∧ (7 : Nat) < 7 + 60000; omega)
  exact ⟨hmain.1 0 (by omega), hmain.2.1, hmain.2.2.1,
    (hmain.2.2.2 70000 (by show (7 : Nat) + 60000 ≤ 70000; omega)).1⟩

/-- Claim C10: createRateLimitMiddleware never reads the windowMs value of
its configuration (two configurations agreeing on maxRequests and store
yield the same middleware), and the default memory store always starts a
fresh window with resetAt sixty seconds after now; so the effective
window length is fixed at sixty seconds regardless of any configured
windowMs. -/
theorem rateLimit_windowMs_unused :
    (∀ c1 c2 : RateLimitConfig, c1.maxRequests = c2.maxRequests →
      c1.store = c2.store →
      createRateLimitMiddleware c1 = createRateLimitMiddleware c2) ∧
    (∀ (now : Nat) (key : String) (st : StoreState), jsMapGet key st = none →
      (memoryStoreIncrement now key st).1 = ⟨1, now + 60 * 1000⟩) ∧
    (∀ (now : Nat) (key : String) (st : StoreState) (e : RateLimitEntry),
      jsMapGet key st = some e → e.resetAt ≤ now →
      (memoryStoreIncrement now key st).1 = ⟨1, now + 60 * 1000⟩) := by
  refine ⟨?_, ?_, ?_⟩
  · intro c1 c2 h1 h2
    unfold createRateLimitMiddleware
    rw [h1, h2]
  · intro now key st h
    rw [storeInc_fresh now key st h]
  · intro now key st e h hexp
    rw [storeInc_expired now key st e h hexp]

theorem rateLimit_windowMs_unused_witness :
    createRateLimitMiddleware ⟨some 5, some 1, none⟩ =
      createRateLimitMiddleware ⟨some 5, some 999999999, none⟩ ∧
    (memoryStoreIncrement 7 "k" []).1 = ⟨1, 7 + 60 * 1000⟩ :=
  ⟨rateLimit_windowMs_unused.1 ⟨some 5, some 1, none⟩
      ⟨some 5, some 999999999, none⟩ rfl rfl,
    rateLimit_windowMs_unused.2.1 7 "k" [] rfl⟩

/-- Claim C3: every IPv4 literal hostname lying in the ranges 0.0.0.0/8,
10.0.0.0/8, 127.0.0.0/8, 169.254.0.0/16, 172.16.0.0/12, 192.168.0.0/16,
224.0.0.0/4 or 240.0.0.0/4 makes validateUrl return a failure outcome,
for any DNS behaviour; and the globally routable literal 8.8.8.8 with
scheme https is accepted, carrying the parsed URL. -/
theorem validateUrl_ipv4_ranges :
    (∀ (s : String) (a b c d : Nat) (dns : Option (List DnsRecord)),
      (splitOnDot s.data).map jsNum = [some a, some b, some c, some d] →
      a ≤ 255 → b ≤ 255 → c ≤ 255 → d ≤ 255 →
      isIPv4L s.data = true →
      stripBrackets s.data = s.data →
      (a = 0 ∨ a = 10 ∨ a = 127 ∨ (a = 169 ∧ b = 254) ∨
        (a = 172 ∧ 16 ≤ b ∧ b ≤ 31) ∨ (a = 192 ∧ b = 168) ∨
        (224 ≤ a ∧ a ≤ 239) ∨ 240 ≤ a) →
      (validateUrl dns ⟨"https:", s⟩).isFailure = true) ∧
    (∀ dns, validateUrl dns ⟨"https:", "8.8.8.8"⟩ =
      .valid ⟨"https:", "8.8.8.8"⟩) := by
  constructor
  · intro s a b c d dns hParts ha hb hc hd hIp hBr hRange
    have hpriv : isPrivateIPv4L s.data = true := by
      unfold isPrivateIPv4L
      rw [hParts]
      show (if (decide (a > 255) || decide (b > 255) || decide (c > 255) ||
            decide (d > 255)) = true then false
          else ((a == 0) || (a == 10) || (a == 127) ||
            (a == 169 && b == 254) ||
            (a == 172 && decide (16 ≤ b) && decide (b ≤ 31)) ||
            (a == 192 && b == 168) ||
            (decide (224 ≤ a) && decide (a ≤ 239)) ||
            decide (240 ≤ a))) = true
      rw [if_neg (by
        intro hco
        simp only [Bool.or_eq_true, decide_eq_true_eq] at hco
        omega)]
      simp only [Bool.or_eq_true, Bool.and_eq_true, beq_iff_eq,
        decide_eq_true_eq]
      omega
    unfold validateUrl
    rw [if_neg (by simp)]
    by_cases hloc : isLocalhostHostname
        (⟨"https:", s⟩ : UrlObj).hostname.data = true
    · rw [if_pos hloc]
      rfl
    · rw [if_neg hloc]
      dsimp only
      rw [hBr, if_pos hIp, if_pos hpriv]
      rfl
  · intro dns
    rfl

theorem validateUrl_ipv4_ranges_witness :
    (validateUrl none ⟨"https:", "10.0.0.1"⟩).isFailure = true ∧
    validateUrl none ⟨"https:", "8.8.8.8"⟩ = .valid ⟨"https:", "8.8.8.8"⟩ :=
  ⟨validateUrl_ipv4_ranges.1 "10.0.0.1" 10 0 0 1 none (by decide) (by decide)
      (by decide) (by decide) (by decide) (by decide) (by decide)
      (Or.inr (Or.inl rfl)),
    validateUrl_ipv4_ranges.2 none⟩

/-- Claim C4: for a URL whose hostname is a domain name (not an IP
literal), validateUrl consults DNS resolution over all returned records of
both address families: a failed resolution yields the failure reason
Could not resolve hostname, a resolution containing at least one
private or reserved address (IPv4 or IPv6) is rejected as resolving to a
private IP address, and the URL is accepted exactly when every resolved
address is public. -/
theorem validateUrl_dns_spec (u : UrlObj) (dns : Option (List DnsRecord))
    (hp : u.protocol = "http:" ∨ u.protocol = "https:")
    (hloc : isLocalhostHostname u.hostname.data = false)
    (h4 : isIPv4L (stripBrackets u.hostname.data) = false)
    (h6 : isIPv6L u.hostname.data = false) :
    (dns = none → validateUrl dns u = .invalid "Could not resolve hostname.") ∧
    (∀ recs, dns = some recs →
      ((∃ r ∈ recs, dnsRecordPrivate r = true) →
        validateUrl dns u = .invalid "URL resolves to a private IP address.") ∧
      ((∀ r ∈ recs, dnsRecordPrivate r = false) →
        validateUrl dns u = .valid u)) := by
  have hmain : validateUrl dns u =
      (match dns with
      | none => .invalid "Could not resolve hostname."
      | some recs =>
        if recs.any dnsRecordPrivate then
          .invalid "URL resolves to a private IP address."
        else .valid u) := by
    unfold validateUrl
    rw [if_neg (by
      intro hcon
      rcases hp with h | h
      · exact hcon.1 h
      · exact hcon.2 h)]
    rw [if_neg (by rw [hloc]; simp)]
    dsimp only
    rw [if_neg (by rw [h4]; simp), if_neg (by rw [h6]; simp)]
  constructor
  · intro hdns
    subst hdns
    exact hmain
  · intro recs hdns
    subst hdns
    rw [hmain]
    dsimp only
    constructor
    · intro hex
      rcases hex with ⟨r, hr, hpriv⟩
      rw [if_pos (List.any_eq_true.mpr ⟨r, hr, hpriv⟩)]
    · intro hall
      rw [if_neg (by
        intro hco
        rcases List.any_eq_true.mp hco with ⟨r, hr, hp2⟩
        rw [hall r hr] at hp2
        exact Bool.noConfusion hp2)]

theorem validateUrl_dns_spec_witness :
    validateUrl none ⟨"https:", "example.com"⟩ =
      .invalid "Could not resolve hostname." ∧
    validateUrl (some [⟨4, "93.184.216.34".data⟩, ⟨6, "2606:2800::1".data⟩])
      ⟨"https:", "example.com"⟩ = .valid ⟨"https:", "example.com"⟩ ∧
    validateUrl (some [⟨4, "93.184.216.34".data⟩, ⟨4, "10.0.0.7".data⟩])
      ⟨"https:", "example.com"⟩ =
      .invalid "URL resolves to a private IP address." := by
  refine ⟨(validateUrl_dns_spec ⟨"https:", "example.com"⟩ none (Or.inr rfl)
      (by decide) (by decide) (by decide)).1 rfl, ?_, ?_⟩
  · exact ((validateUrl_dns_spec ⟨"https:", "example.com"⟩ _ (Or.inr rfl)
      (by decide) (by decide) (by decide)).2 _ rfl).2 (by decide)
  · exact ((validateUrl_dns_spec ⟨"https:", "example.com"⟩ _ (Or.inr rfl)
      (by decide) (by decide) (by decide)).2 _ rfl).1
      ⟨⟨4, "10.0.0.7".data⟩, by decide, by decide⟩

/-- Claim C5: both size-limit paths of fetchHtml yield content_too_large:
a declared Content-Length over the 2 MiB limit is rejected, and a body
whose actual size exceeds the limit while its Content-Length header
understates it is also rejected as content_too_large.  However the entire
body (2097153 bytes here) is buffered before the actual-size check runs:
the transfer is not aborted mid-stream at the limit, contradicting the
claimed mid-stream abort. -/
theorem fetchHtml_size_limit_paths :
    fetchHtml DEFAULT_MAX_SIZE_BYTES
        ⟨some "9999999".data, "x".data, "text/html", "u"⟩ =
      .err .content_too_large ∧
    contentLengthExceeds DEFAULT_MAX_SIZE_BYTES
        ⟨some "1000".data, List.replicate 2097153 'a', "text/html", "u"⟩ =
      false ∧
    fetchHtml DEFAULT_MAX_SIZE_BYTES
        ⟨some "1000".data, List.replicate 2097153 'a', "text/html", "u"⟩ =
      .err .content_too_large ∧
    fetchBytesBuffered
        ⟨some "1000".data, List.replicate 2097153 'a', "text/html", "u"⟩ =
      2097153 ∧
    DEFAULT_MAX_SIZE_BYTES < 2097153 := by
  have hcl : contentLengthExceeds DEFAULT_MAX_SIZE_BYTES
      ⟨some "1000".data, List.replicate 2097153 'a', "text/html", "u"⟩ =
      false := by decide
  refine ⟨by decide, hcl, ?_, ?_, by decide⟩
  · unfold fetchHtml
    rw [if_neg (by rw [hcl]; simp)]
    rw [if_pos (by
      show (List.replicate 2097153 'a').length > DEFAULT_MAX_SIZE_BYTES
      rw [List.length_replicate]
      decide)]
  · unfold fetchBytesBuffered
    exact List.length_replicate 2097153 'a'

/-- Claim C6: a schema-valid AI extraction with an empty ingredients array
makes the pipeline respond with outward error unsupported_content at HTTP
status 400, never a 200 success, and that outcome is distinct from a
schema-validation failure, which maps to parse_failed at 422. -/
theorem handler_zero_ingredients (o : StageOutcomes) (rawUrl : String)
    (v : UrlObj) (html : List Char) (ct fu : String) (content : List Char)
    (ext : AIExtraction)
    (h1 : o.reqUrl = some rawUrl) (h2 : o.urlValidation = .valid v)
    (h3 : o.fetch = .ok html ct fu) (h4 : o.content = .ok content)
    (h5 : o.aiCall = .ok ()) (h6 : o.aiParse = .ok ext)
    (h7 : ext.ingredients = []) :
    extractIngredientsHandler o =
      .failure 400 .unsupported_content "No ingredients found in page" ∧
    (extractIngredientsHandler o).status ≠ 200 ∧
    errorCodeToStatusCode .parse_failed = 422 ∧
    ErrorCode.unsupported_content ≠ ErrorCode.parse_failed := by
  have hh : extractIngredientsHandler o =
      .failure 400 .unsupported_content "No ingredients found in page" := by
    unfold extractIngredientsHandler
    rw [h1, h2, h3, h4, h5, h6]
    dsimp only
    have hni : hasIngredients ext = false := by
      unfold hasIngredients
      rw [h7]
      rfl
    rw [if_pos (by rw [hni]; rfl)]
    rfl
  refine ⟨hh, by rw [hh]; decide, by decide, by decide⟩

theorem handler_zero_ingredients_witness :
    extractIngredientsHandler
        ⟨some "https://e.com", .valid ⟨"https:", "e.com"⟩,
          .ok "h".data "text/html" "u", .ok "c".data, .ok (),
          .ok ⟨none, none, []⟩⟩ =
      .failure 400 .unsupported_content "No ingredients found in page" :=
  (handler_zero_ingredients _ "https://e.com" ⟨"https:", "e.com"⟩ "h".data
    "text/html" "u" "c".data ⟨none, none, []⟩ rfl rfl rfl rfl rfl rfl rfl).1

/-- Claim C7: every response-validation failure of the AI extraction
response, whether an empty response, a JSON parse failure or a schema
violation, is reported to the caller with outward error code parse_failed
and HTTP status 422 through the centralized error handler. -/
theorem handler_parse_failed (o : StageOutcomes) (rawUrl : String)
    (v : UrlObj) (html : List Char) (ct fu : String) (content : List Char)
    (e : AIExtractError)
    (h1 : o.reqUrl = some rawUrl) (h2 : o.urlValidation = .valid v)
    (h3 : o.fetch = .ok html ct fu) (h4 : o.content = .ok content)
    (h5 : o.aiCall = .ok ()) (h6 : o.aiParse = .error e) :
    extractIngredientsHandler o = .failure 422 .parse_failed e.message ∧
    errorCodeToStatusCode .parse_failed = 422 := by
  constructor
  · unfold extractIngredientsHandler
    rw [h1, h2, h3, h4, h5, h6]
    rfl
  · decide

theorem handler_parse_failed_witness :
    extractIngredientsHandler
        ⟨some "https://e.com", .valid ⟨"https:", "e.com"⟩,
          .ok "h".data "text/html" "u", .ok "c".data, .ok (),
          .error ⟨.empty_response, "AI returned empty response"⟩⟩ =
      .failure 422 .parse_failed "AI returned empty response" :=
  (handler_parse_failed _ "https://e.com" ⟨"https:", "e.com"⟩ "h".data
    "text/html" "u" "c".data ⟨.empty_response, "AI returned empty response"⟩
    rfl rfl rfl rfl rfl rfl).1

end Chomp
